import Mathlib

/-!
Verification of the mocha reporter core (lib/reporters/base.js, json.js,
xunit.js) against its natural-language specification.

The JavaScript sources are shallowly embedded: each JS function that a claim
refers to is translated into an executable Lean definition over explicit data
models (strings as `String`, JS object graphs as index-functions into a finite
node table, exceptions as `Except`/`Option`).  Recursive JS functions whose
termination is itself under scrutiny are embedded with an explicit fuel
parameter; the corresponding theorems show that a fuel bounded by the number
of distinct nodes suffices, which is exactly the termination/recursion-depth
claim about the source.
-/

/- ## String helpers mirroring the JavaScript primitives used by base.js

JS `String.prototype.slice`, `indexOf` and `length` operate on code units; we
model strings at character granularity, which agrees on all the material the
reporters handle. -/

/-- Character-level model of JS `s.slice(0, n)`. -/
def sTake (s : String) (n : Nat) : String := ⟨s.toList.take n⟩

/-- Character-level model of JS `s.slice(n)`. -/
def sDrop (s : String) (n : Nat) : String := ⟨s.toList.drop n⟩

/-- Scanner underlying `sIndexOf`: first position at or after `i` where `pat`
occurs in `l`. -/
def idxAux : List Char → List Char → Nat → Option Nat
  | l, pat, i =>
    if pat.isPrefixOf l then some i
    else
      match l with
      | [] => none
      | _ :: t => idxAux t pat (i + 1)

/-- Model of JS `s.indexOf(pat)`: `some i` at the first occurrence, `none`
when absent (JS returns `-1`, modelled as `none`). -/
def sIndexOf (s pat : String) : Option Nat := idxAux s.toList pat.toList 0

/-- Number of (possibly overlapping) occurrences of `pat` in a character
list; used to count `<circular>` markers in flattened stacks. -/
def countOccurAux : List Char → List Char → Nat
  | [], _ => 0
  | c :: t, pat => (if pat.isPrefixOf (c :: t) then 1 else 0) + countOccurAux t pat

/-- Number of occurrences of `pat` in `s`. -/
def countOccur (s pat : String) : Nat := countOccurAux s.toList pat.toList

/-- Model of JS `str.repeat(n)`. -/
def sRepeat : Nat → String → String
  | 0, _ => ""
  | n + 1, s => s ++ sRepeat n s

/- ## ErrorStackFlattener: `getFullErrorStack` from lib/reporters/base.js

An error object graph is a function from node indices to `ErrNode`; the
`cause` field holds the index of the wrapped error, so self-referential
(`err.cause == err`) and mutually-referential chains are representable.
A `none` inspect models an error without a custom `inspect` function;
an empty `stack` models a missing/empty (falsy) `err.stack`. -/

/-- One error object as seen by `getFullErrorStack`. -/
structure ErrNode where
  inspect : Option String
  message : String
  stack : String
  cause : Option Nat
deriving DecidableEq, Repr

instance : Inhabited ErrNode := ⟨⟨none, "", "", none⟩⟩

/-- Result record `{message, msg, stack}` of `getFullErrorStack`. -/
structure FullErrorStack where
  message : String
  msg : String
  stack : String
deriving DecidableEq, Repr

/-- The `message` computation at the top of `getFullErrorStack`: prefer
`err.inspect()`, else `err.message` (an empty message is falsy in JS and the
final branch assigns `''`, which coincides with taking the empty message). -/
def errMessage (nd : ErrNode) : String := nd.inspect.getD nd.message

/-- The `stack` initialisation `err.stack || message` (an empty JS string is
falsy, so it falls back to the message). -/
def errStackText (nd : ErrNode) : String :=
  if nd.stack = "" then errMessage nd else nd.stack

/-- The `index` computation `message ? stack.indexOf(message) : -1`,
with `-1` modelled as `none`. -/
def errFind (nd : ErrNode) : Option Nat :=
  if errMessage nd = "" then none else sIndexOf (errStackText nd) (errMessage nd)

/-- Shallow embedding of `getFullErrorStack(err, seen)` (base.js).  `env`
is the error graph, `e` the index of the current error and `seen` the
visited set (a fresh `Set` is modelled by the empty list, and `seen.add`
by consing before the recursive call, exactly as the source mutates the
set right before recursing into `err.cause`).  The `fuel` parameter makes
the possibly-cyclic recursion explicit; running out of fuel yields `none`,
and the termination theorems show `none` is unreachable with fuel one more
than the number of distinct nodes. -/
def getFullErrorStack (env : Nat → ErrNode) : Nat → Nat → List Nat → Option FullErrorStack
  | 0, _, _ => none
  | fuel + 1, e, seen =>
    if e ∈ seen then some ⟨"", "<circular>", ""⟩
    else
      match errFind (env e) with
      | none => some ⟨errMessage (env e), errMessage (env e), errStackText (env e)⟩
      | some idx =>
        match (env e).cause with
        | none =>
          some ⟨errMessage (env e),
                sTake (errStackText (env e)) (idx + (errMessage (env e)).length),
                sDrop (errStackText (env e)) (idx + (errMessage (env e)).length + 1)⟩
        | some c =>
          match getFullErrorStack env fuel c (e :: seen) with
          | none => none
          | some cs =>
            some ⟨errMessage (env e),
                  sTake (errStackText (env e)) (idx + (errMessage (env e)).length),
                  sDrop (errStackText (env e)) (idx + (errMessage (env e)).length + 1)
                    ++ "\n   Caused by: " ++ cs.msg
                    ++ (if cs.stack = "" then "" else "\n" ++ cs.stack)⟩

/-- An error graph is well-formed for size `n` when every `cause` field of a
node below `n` points below `n`. -/
def wfErrEnv (env : Nat → ErrNode) (n : Nat) : Prop :=
  ∀ i, i < n → ∀ c, (env i).cause = some c → c < n

/-- A single self-referential error: `err.cause == err`. -/
def selfEnv : Nat → ErrNode := fun _ => ⟨none, "boom", "boom\n  at selfloop", some 0⟩

/-- Two mutually-referential errors: `a.cause == b`, `b.cause == a`. -/
def mutualEnv : Nat → ErrNode := fun i =>
  match i with
  | 0 => ⟨none, "err-a", "err-a\n  at fa", some 1⟩
  | _ => ⟨none, "err-b", "err-b\n  at fb", some 0⟩

/-- Number of node indices below `n` not yet in the visited set: the measure
that bounds the recursion depth of `getFullErrorStack`. -/
def freeCount (n : Nat) (seen : List Nat) : Nat :=
  ((Finset.range n).filter (fun i => i ∉ seen)).card

lemma freeCount_mono (n : Nat) (s s' : List Nat) (h : ∀ x, x ∈ s → x ∈ s') :
    freeCount n s' ≤ freeCount n s := by
  apply Finset.card_le_card
  intro x hx
  simp only [Finset.mem_filter, Finset.mem_range] at hx ⊢
  exact ⟨hx.1, fun hm => hx.2 (h x hm)⟩

lemma freeCount_cons_lt (n e : Nat) (s : List Nat) (he : e < n) (hs : e ∉ s) :
    freeCount n (e :: s) < freeCount n s := by
  apply Finset.card_lt_card
  constructor
  · intro x hx
    simp only [Finset.mem_filter, Finset.mem_range, List.mem_cons] at hx ⊢
    exact ⟨hx.1, fun h => hx.2 (Or.inr h)⟩
  · intro hsub
    have := hsub (by
      simp only [Finset.mem_filter, Finset.mem_range]
      exact ⟨he, hs⟩)
    simp [Finset.mem_filter] at this

lemma freeCount_nil (n : Nat) : freeCount n [] = n := by
  simp [freeCount]

lemma isPrefixOf_exists : ∀ (p l : List Char), p.isPrefixOf l = true → ∃ t, l = p ++ t := by
  intro p
  induction p with
  | nil => intro l _; exact ⟨l, rfl⟩
  | cons a p ih =>
    intro l h
    cases l with
    | nil => simp [List.isPrefixOf] at h
    | cons b t =>
      simp only [List.isPrefixOf, Bool.and_eq_true, beq_iff_eq] at h
      obtain ⟨rfl, h2⟩ := h
      obtain ⟨u, hu⟩ := ih t h2
      exact ⟨u, by simp [hu]⟩

lemma idxAux_spec : ∀ (l pat : List Char) (i j : Nat),
    idxAux l pat i = some j → ∃ l1 l2, l = l1 ++ pat ++ l2 ∧ i + l1.length = j := by
  intro l
  induction l with
  | nil =>
    intro pat i j h
    simp only [idxAux] at h
    by_cases hp : pat.isPrefixOf ([] : List Char)
    · rw [if_pos hp] at h
      obtain ⟨t, ht⟩ := isPrefixOf_exists pat [] hp
      have hpat : pat = [] := by
        cases pat with
        | nil => rfl
        | cons a q => simp at ht
      cases h
      exact ⟨[], [], by simp [hpat], by simp⟩
    · rw [if_neg hp] at h
      exact absurd h (by simp)
  | cons c t ih =>
    intro pat i j h
    simp only [idxAux] at h
    by_cases hp : pat.isPrefixOf (c :: t)
    · rw [if_pos hp] at h
      obtain ⟨l2, hl2⟩ := isPrefixOf_exists pat (c :: t) hp
      cases h
      exact ⟨[], l2, by simpa using hl2, by simp⟩
    · rw [if_neg hp] at h
      obtain ⟨l1, l2, heq, hlen⟩ := ih pat (i + 1) j h
      refine ⟨c :: l1, l2, by simp [heq], ?_⟩
      simp only [List.length_cons]
      omega

lemma gfes_isSome (env : Nat → ErrNode) (n : Nat) (hwf : wfErrEnv env n) :
    ∀ fuel e seen, e < n → freeCount n seen < fuel →
      (getFullErrorStack env fuel e seen).isSome := by
  intro fuel
  induction fuel with
  | zero => intro e seen _ hfc; omega
  | succ f ih =>
    intro e seen he hfc
    simp only [getFullErrorStack]
    by_cases hmem : e ∈ seen
    · simp [hmem]
    · rw [if_neg hmem]
      cases hfind : errFind (env e) with
      | none => simp
      | some idx =>
        cases hcause : (env e).cause with
        | none => simp
        | some c =>
          have hc : c < n := hwf e he c hcause
          have hlt : freeCount n (e :: seen) < f := by
            have := freeCount_cons_lt n e seen he hmem
            omega
          have hrec := ih c (e :: seen) hc hlt
          cases hr : getFullErrorStack env f c (e :: seen) with
          | none => rw [hr] at hrec; simp at hrec
          | some cs => simp [hr]

lemma gfes_mono (env : Nat → ErrNode) :
    ∀ fuel fuel' e seen, fuel ≤ fuel' →
      (getFullErrorStack env fuel e seen).isSome →
      getFullErrorStack env fuel' e seen = getFullErrorStack env fuel e seen := by
  intro fuel
  induction fuel with
  | zero => intro fuel' e seen _ hs; simp [getFullErrorStack] at hs
  | succ f ih =>
    intro fuel' e seen hle hs
    cases fuel' with
    | zero => omega
    | succ f' =>
      simp only [getFullErrorStack]
      by_cases hmem : e ∈ seen
      · rw [if_pos hmem, if_pos hmem]
      · rw [if_neg hmem, if_neg hmem]
        cases hfind : errFind (env e) with
        | none => rfl
        | some idx =>
          cases hcause : (env e).cause with
          | none => rfl
          | some c =>
            simp only [getFullErrorStack] at hs
            rw [if_neg hmem] at hs
            simp only [hfind, hcause] at hs
            cases hr : getFullErrorStack env f c (e :: seen) with
            | none => rw [hr] at hs; simp at hs
            | some cs =>
              have heq := ih f' c (e :: seen) (by omega) (by rw [hr]; rfl)
              simp only [heq]

/-- C1: `getFullErrorStack` terminates on every error chain, including
self-referential (`err.cause == err`) and mutually-referential chains: on a
well-formed graph with `n` nodes a fuel of `n + 1` (one frame per distinct
node plus the short-circuited re-visit) never runs out, and larger fuel gives
the same result, so the recursion depth is bounded by the number of distinct
error nodes.  A cause already in the visited set is rendered as the single
record `{msg: "<circular>", stack: ""}` without recursing, and the concrete
self-referential and mutually-referential chains each produce exactly one
`<circular>` marker in the flattened output. -/
theorem c1_getFullErrorStack_cycle_safe (env : Nat → ErrNode) (n : Nat)
    (hwf : wfErrEnv env n) (e : Nat) (he : e < n) :
    (getFullErrorStack env (n + 1) e []).isSome
    ∧ (∀ fuel, n + 1 ≤ fuel →
        getFullErrorStack env fuel e [] = getFullErrorStack env (n + 1) e [])
    ∧ (∀ fuel seen, e ∈ seen →
        getFullErrorStack env (fuel + 1) e seen = some ⟨"", "<circular>", ""⟩)
    ∧ (getFullErrorStack selfEnv 2 0 []).map
        (fun r => countOccur (r.msg ++ r.stack) "<circular>") = some 1
    ∧ (getFullErrorStack mutualEnv 3 0 []).map
        (fun r => countOccur (r.msg ++ r.stack) "<circular>") = some 1 := by
  have hsome : (getFullErrorStack env (n + 1) e []).isSome :=
    gfes_isSome env n hwf (n + 1) e [] he (by rw [freeCount_nil]; omega)
  refine ⟨hsome, ?_, ?_, ?_, ?_⟩
  · intro fuel hf
    exact gfes_mono env (n + 1) fuel e [] hf hsome
  · intro fuel seen hmem
    simp only [getFullErrorStack]
    rw [if_pos hmem]
  · decide
  · decide

/-- Witness for C1 at the concrete self-referential chain (`n = 1`). -/
theorem c1_getFullErrorStack_cycle_safe_witness :
    (getFullErrorStack selfEnv 2 0 []).isSome :=
  (c1_getFullErrorStack_cycle_safe selfEnv 1
    (fun i _ c hc => by
      simp only [selfEnv, Option.some.injEq] at hc
      omega)
    0 (by omega)).1

/-- The error used to refute C6's `msg == message` clause: the raw stack
carries the usual `Error: ` prefix before the message, as V8 stacks do. -/
def c6node : ErrNode := ⟨none, "boom", "Error: boom\n  at f", none⟩

/-- C6 counterexample: for an error without a cause whose message (`"boom"`)
occurs in the raw stack at index 7, the flattener returns
`msg = "Error: boom"`, which is not the message, and the returned stack drops
one further separator character beyond the occurrence.  This refutes the
claim that `msg == message` whenever the message occurs in the stack. -/
theorem c6_msg_equals_message_counterexample :
    errFind c6node = some 7
    ∧ getFullErrorStack (fun _ => c6node) 1 0 [] =
        some ⟨"boom", "Error: boom", "  at f"⟩
    ∧ "Error: boom" ≠ "boom" := by decide

/-- C6 (amended): for an error without a cause, when the message occurs in
the raw stack at index `i`, the flattener returns `msg` equal to the stack
prefix up to and including the occurrence (so `msg` ends with the message,
and `msg == message` exactly when the occurrence starts at index 0) and
`stack` equal to the remainder after the occurrence with one further
separator character dropped; when the message does not occur (or is empty),
`msg == message` and `stack` is the entire raw stack, unsplit. -/
theorem c6_flatten_no_cause_amended (nd : ErrNode) (hc : nd.cause = none) :
    (errFind nd = none →
      getFullErrorStack (fun _ => nd) 1 0 [] =
        some ⟨errMessage nd, errMessage nd, errStackText nd⟩)
    ∧ (∀ i, errFind nd = some i →
      getFullErrorStack (fun _ => nd) 1 0 [] =
        some ⟨errMessage nd, sTake (errStackText nd) (i + (errMessage nd).length),
              sDrop (errStackText nd) (i + (errMessage nd).length + 1)⟩
      ∧ (errMessage nd).toList <:+
          (sTake (errStackText nd) (i + (errMessage nd).length)).toList
      ∧ (i = 0 →
          sTake (errStackText nd) (i + (errMessage nd).length) = errMessage nd)) := by
  constructor
  · intro h
    simp only [getFullErrorStack]
    simp [h]
  · intro i h
    have hne : errMessage nd ≠ "" := by
      intro hmsg
      simp [errFind, hmsg] at h
    have hfind : sIndexOf (errStackText nd) (errMessage nd) = some i := by
      simpa [errFind, hne] using h
    obtain ⟨l1, l2, heq, hlen⟩ :=
      idxAux_spec (errStackText nd).toList (errMessage nd).toList 0 i hfind
    have hl1 : l1.length = i := by omega
    have htake : (errStackText nd).toList.take (i + (errMessage nd).length)
        = l1 ++ (errMessage nd).toList := by
      rw [heq, List.take_append_eq_append_take]
      have h3 : (errMessage nd).toList.length = (errMessage nd).length := rfl
      have hlen2 : (l1 ++ (errMessage nd).toList).length = i + (errMessage nd).length := by
        rw [List.length_append, hl1, h3]
      rw [List.take_of_length_le (le_of_eq hlen2), hlen2, Nat.sub_self,
        List.take_zero, List.append_nil]
    refine ⟨?_, ?_, ?_⟩
    · simp only [getFullErrorStack]
      simp [h, hc]
    · rw [show (sTake (errStackText nd) (i + (errMessage nd).length)).toList
          = (errStackText nd).toList.take (i + (errMessage nd).length) from rfl, htake]
      exact List.suffix_append l1 (errMessage nd).toList
    · intro hi
      subst hi
      have hl1nil : l1 = [] := List.length_eq_zero.mp (by omega)
      subst hl1nil
      show String.mk ((errStackText nd).toList.take (0 + (errMessage nd).length))
          = errMessage nd
      rw [htake, List.nil_append]
      rfl

/-- Witness for C6's amended theorem at the concrete error `c6node`, whose
message occurs at index 7 of its raw stack. -/
theorem c6_flatten_no_cause_amended_witness :
    getFullErrorStack (fun _ => c6node) 1 0 [] =
      some ⟨errMessage c6node,
            sTake (errStackText c6node) (7 + (errMessage c6node).length),
            sDrop (errStackText c6node) (7 + (errMessage c6node).length + 1)⟩ :=
  (((c6_flatten_no_cause_amended c6node rfl).2 7 (by decide))).1

/- ## DiffEngine: `color`, `generateDiff` and its resilience wrapper (base.js)

The actual line/word diff computation is delegated by the source to the
external `diff` npm package (`unifiedDiff` / `inlineDiff` wrap it); the
claims under verification concern only `generateDiff`'s truncation and
exception handling, so the inner computation is an arbitrary `core`
function returning `Except`, with `Except.error` modelling a thrown JS
exception caught by the `try ... catch` of `generateDiff`. -/

/-- The `colors` table of base.js (ANSI code per semantic tag). -/
def colors : String → String
  | "pass" => "90"
  | "fail" => "31"
  | "bright pass" => "92"
  | "bright fail" => "91"
  | "bright yellow" => "93"
  | "pending" => "36"
  | "suite" => "0"
  | "error title" => "0"
  | "error message" => "31"
  | "error stack" => "90"
  | "checkmark" => "32"
  | "fast" => "90"
  | "medium" => "33"
  | "slow" => "31"
  | "green" => "32"
  | "light" => "90"
  | "diff gutter" => "90"
  | "diff added" => "32"
  | "diff removed" => "31"
  | "diff added inline" => "30;42"
  | "diff removed inline" => "30;41"
  | _ => "undefined"

/-- `color(type, str)` from base.js: identity when colouring is disabled,
else ANSI-escape wrapping with the code from the `colors` table. -/
def color (useColors : Bool) (ty s : String) : String :=
  if useColors then "\x1b[" ++ colors ty ++ "m" ++ s ++ "\x1b[0m" else s

/-- The reporter configuration relevant to `generateDiff`: the module-level
mutable `useColors`, `inlineDiffs` and `maxDiffSize` of base.js. -/
structure DiffCfg where
  useColors : Bool
  inlineDiffs : Bool
  maxDiffSize : Nat
deriving DecidableEq, Repr

/-- The truncation notice appended by `generateDiff` when input was
truncated. -/
def truncNotice (maxLen : Nat) : String :=
  "\n      [mocha] output truncated to " ++ toString maxLen
    ++ " characters, see \"maxDiffSize\" reporter-option\n"

/-- The fallback notice built in `generateDiff`'s `catch` block. -/
def diffFallback (useColors : Bool) : String :=
  "\n      " ++ color useColors "diff added" "+ expected" ++ " "
    ++ color useColors "diff removed" "- actual:  failed to generate Mocha diff" ++ "\n"

/-- Shallow embedding of `generateDiff(actual, expected)` (base.js).
`skipped = max(actual.length - maxLen, expected.length - maxLen)` is an
`Int` as in JS, with truncation and the notice applied only when
`maxLen > 0`; a `core` failure models an exception reaching the `catch`. -/
def generateDiff (cfg : DiffCfg) (core : Bool → String → String → Except String String)
    (actual expected : String) : String :=
  let maxLen := cfg.maxDiffSize
  let skipped : Int :=
    if 0 < maxLen then
      max ((actual.length : Int) - maxLen) ((expected.length : Int) - maxLen)
    else 0
  let actual2 := if 0 < maxLen then sTake actual maxLen else actual
  let expected2 := if 0 < maxLen then sTake expected maxLen else expected
  match core cfg.inlineDiffs actual2 expected2 with
  | .error _ => diffFallback cfg.useColors
  | .ok result => if 0 < skipped then result ++ truncNotice maxLen else result

/-- C2: with `maxDiffSize = N > 0` and either input longer than `N`, both
inputs are truncated to `N` characters before the diff core runs, and the
output is the core's result followed by a truncation notice naming `N`
(in particular the notice occurs in the output); with both inputs within
the bound the output is the core's result alone; and with
`maxDiffSize = 0` the inputs reach the core untruncated and the output is
the core's result with no notice, regardless of input length. -/
theorem c2_generateDiff_truncation (cfg : DiffCfg)
    (core : Bool → String → String → Except String String)
    (actual expected r : String) :
    (0 < cfg.maxDiffSize →
      core cfg.inlineDiffs (sTake actual cfg.maxDiffSize)
          (sTake expected cfg.maxDiffSize) = .ok r →
      ((cfg.maxDiffSize < actual.length ∨ cfg.maxDiffSize < expected.length →
          generateDiff cfg core actual expected = r ++ truncNotice cfg.maxDiffSize)
        ∧ (actual.length ≤ cfg.maxDiffSize → expected.length ≤ cfg.maxDiffSize →
            generateDiff cfg core actual expected = r)))
    ∧ (cfg.maxDiffSize = 0 →
        core cfg.inlineDiffs actual expected = .ok r →
        generateDiff cfg core actual expected = r) := by
  constructor
  · intro hN hcore
    constructor
    · intro hlong
      have hskip : (0 : Int) < max ((actual.length : Int) - cfg.maxDiffSize)
          ((expected.length : Int) - cfg.maxDiffSize) := by
        rcases hlong with h | h
        · exact lt_max_iff.mpr (Or.inl (by omega))
        · exact lt_max_iff.mpr (Or.inr (by omega))
      simp only [generateDiff, hN, if_true, hcore]
      rw [if_pos hskip]
    · intro ha he
      have hskip : ¬ (0 : Int) < max ((actual.length : Int) - cfg.maxDiffSize)
          ((expected.length : Int) - cfg.maxDiffSize) := by
        simp only [not_lt, max_le_iff]
        omega
      simp only [generateDiff, hN, if_true, hcore]
      rw [if_neg hskip]
  · intro h0 hcore
    simp only [generateDiff, h0, Nat.lt_irrefl, if_false, hcore]
    rfl

/-- The concrete diff core used to witness C2. -/
def c2core : Bool → String → String → Except String String :=
  fun _ x y => .ok (x ++ "|" ++ y)

/-- Witness for C2 with `maxDiffSize = 4` and a 6-character actual input. -/
theorem c2_generateDiff_truncation_witness :
    generateDiff ⟨true, false, 4⟩ c2core "abcdef" "xy" = "abcd|xy" ++ truncNotice 4 :=
  (((c2_generateDiff_truncation ⟨true, false, 4⟩ c2core "abcdef" "xy" "abcd|xy").1
      (by decide) (by rfl)).1) (Or.inl (by decide))

/-- C3: any failure thrown inside the diff computation is caught and
`generateDiff` returns the one-line fallback notice instead of
propagating; in the embedding the function is total, so no exception ever
escapes diff rendering. -/
theorem c3_generateDiff_never_throws (cfg : DiffCfg)
    (core : Bool → String → String → Except String String)
    (actual expected s : String)
    (hfail : core cfg.inlineDiffs
        (if 0 < cfg.maxDiffSize then sTake actual cfg.maxDiffSize else actual)
        (if 0 < cfg.maxDiffSize then sTake expected cfg.maxDiffSize else expected)
        = .error s) :
    generateDiff cfg core actual expected = diffFallback cfg.useColors := by
  simp only [generateDiff]
  rw [hfail]

/-- The always-failing diff core used to witness C3. -/
def c3core : Bool → String → String → Except String String :=
  fun _ _ _ => .error "diff engine exploded"

/-- Witness for C3 at a concrete failing core. -/
theorem c3_generateDiff_never_throws_witness :
    generateDiff ⟨false, false, 0⟩ c3core "a" "b" = diffFallback false :=
  c3_generateDiff_never_throws ⟨false, false, 0⟩ c3core "a" "b"
    "diff engine exploded" (by rfl)

/- ## StatsTracker: the pass handler's speed classification (base.js)

Durations and the per-test slow threshold are JS numbers; `T / 2` is real
division (75 / 2 = 37.5), so they are modelled as rationals. -/

/-- A test as seen by the EVENT_TEST_PASS handler: its duration, its
`slow()` threshold, and the `speed` field the handler assigns. -/
structure PTest where
  duration : ℚ
  slow : ℚ
  speed : Option String
deriving DecidableEq, Repr

/-- The EVENT_TEST_PASS handler installed by the `Base` constructor:
`duration > slow` gives `'slow'`, else `duration > slow / 2` gives
`'medium'`, else `'fast'`. -/
def onPass (t : PTest) : PTest :=
  if t.slow < t.duration then { t with speed := some "slow" }
  else if t.slow / 2 < t.duration then { t with speed := some "medium" }
  else { t with speed := some "fast" }

/-- C4: the pass handler assigns `speed = 'slow'` when `duration > T`,
`'medium'` when `duration ≤ T` and `duration > T / 2`, and `'fast'`
otherwise; with `T = 75`, duration 100 is slow, 40 is medium and 10 is
fast. -/
theorem c4_speed_classification (t : PTest) :
    ((t.slow < t.duration → (onPass t).speed = some "slow")
      ∧ (t.duration ≤ t.slow → t.slow / 2 < t.duration →
          (onPass t).speed = some "medium")
      ∧ (t.duration ≤ t.slow → t.duration ≤ t.slow / 2 →
          (onPass t).speed = some "fast"))
    ∧ ((onPass ⟨100, 75, none⟩).speed = some "slow"
      ∧ (onPass ⟨40, 75, none⟩).speed = some "medium"
      ∧ (onPass ⟨10, 75, none⟩).speed = some "fast") := by
  refine ⟨⟨?_, ?_, ?_⟩, by norm_num [onPass], by norm_num [onPass], by norm_num [onPass]⟩
  · intro h
    simp [onPass, h]
  · intro h1 h2
    have hn : ¬ t.slow < t.duration := not_lt.mpr h1
    simp [onPass, hn, h2]
  · intro h1 h2
    have hn : ¬ t.slow < t.duration := not_lt.mpr h1
    have hn2 : ¬ t.slow / 2 < t.duration := not_lt.mpr h2
    simp [onPass, hn, hn2]

/-- Witness for C4 at duration 100 with threshold 75. -/
theorem c4_speed_classification_witness :
    (onPass ⟨100, 75, none⟩).speed = some "slow" :=
  (c4_speed_classification ⟨100, 75, none⟩).1.1 (by norm_num)

/- ## StatsTracker: the fail handler of the `Base` constructor (base.js)

A thrown JS value is modelled by `JErr`: `isError` is `instanceof Error`,
`truthy` its JS truthiness, and `multiple` the `err.multiple` array (absent
encoded as `[]`, matching the source, which only ever assigns non-empty
arrays to it).  `test.err` is `Option JErr` with `none` for undefined. -/

/-- A thrown value as seen by the EVENT_TEST_FAIL handler. -/
inductive JErr : Type where
  | mk : String → Bool → Bool → List JErr → JErr

/-- Identifying name of the thrown value (stands for object identity). -/
def JErr.name : JErr → String
  | .mk n _ _ _ => n

/-- JS `err instanceof Error`. -/
def JErr.isError : JErr → Bool
  | .mk _ b _ _ => b

/-- JS truthiness of the value. -/
def JErr.truthy : JErr → Bool
  | .mk _ _ t _ => t

/-- The `err.multiple` array (`[]` encodes the absent property). -/
def JErr.multiple : JErr → List JErr
  | .mk _ _ _ m => m

/-- `test.err.multiple = (test.err.multiple || []).concat(err)`. -/
def JErr.addMultiple : JErr → JErr → JErr
  | .mk n b t m, e => .mk n b t (m ++ [e])

/-- The error-merging step of the EVENT_TEST_FAIL handler: if `test.err`
is truthy and the new value is an `Error` instance, append the new value
to `test.err.multiple`, keeping the primary; otherwise `test.err = err`. -/
def onFail (testErr : Option JErr) (err : JErr) : Option JErr :=
  match testErr with
  | some p => if p.truthy && err.isError then some (p.addMultiple err) else some err
  | none => some err

/-- The whole EVENT_TEST_FAIL handler over a sequence of fail events
`(test id, thrown value)`: per-test error state plus the `failures` array,
to which the test is pushed on every event. -/
def runFails : List (Nat × JErr) → (Nat → Option JErr) → List Nat →
    (Nat → Option JErr) × List Nat
  | [], st, fs => (st, fs)
  | (tid, err) :: rest, st, fs =>
    runFails rest (fun i => if i = tid then onFail (st tid) err else st i) (fs ++ [tid])

lemma runFails_order (evts : List (Nat × JErr)) :
    ∀ st fs, (runFails evts st fs).2 = fs ++ evts.map Prod.fst := by
  induction evts with
  | nil => intro st fs; simp [runFails]
  | cons hd tl ih =>
    intro st fs
    cases hd with
    | mk tid err => simp [runFails, ih]

/-- C5 counterexample: a test already holding a genuine `Error` (`E1`,
`isError = true`) receives a non-`Error` thrown value (`V`); the handler
replaces the genuine primary error rather than replacing only a non-error
placeholder, refuting the claim as stated. -/
theorem c5_replace_only_placeholder_counterexample :
    (JErr.mk "E1" true true []).isError = true
    ∧ (JErr.mk "V" false true []).isError = false
    ∧ (onFail (some (JErr.mk "E1" true true [])) (JErr.mk "V" false true [])).map
        JErr.name = some "V" := by
  exact ⟨rfl, rfl, rfl⟩

/-- C5 (amended): if the test already holds a truthy error value and the
new value is a genuine `Error` instance, the new error is appended to the
existing error's `multiple` sequence in arrival order and the primary is
kept; otherwise — no prior error, new value not an `Error` instance, or
prior value falsy — the new value replaces the previous one
unconditionally, even when the previous value was a genuine `Error`; and
in all cases the test is appended to the failures list in event-arrival
order. -/
theorem c5_fail_handler_amended :
    (∀ p err, p.truthy = true → err.isError = true →
      onFail (some p) err = some (p.addMultiple err)
      ∧ (p.addMultiple err).name = p.name
      ∧ (p.addMultiple err).multiple = p.multiple ++ [err])
    ∧ (∀ p err, ¬(p.truthy = true ∧ err.isError = true) →
        onFail (some p) err = some err)
    ∧ (∀ err, onFail none err = some err)
    ∧ (∀ evts, (runFails evts (fun _ => none) []).2 = evts.map Prod.fst) := by
  refine ⟨?_, ?_, ?_, ?_⟩
  · intro p err hp he
    refine ⟨by simp [onFail, hp, he], ?_, ?_⟩
    · cases p with
      | mk n b t m => rfl
    · cases p with
      | mk n b t m => rfl
  · intro p err h
    have hb : (p.truthy && err.isError) = false := by
      cases hpt : p.truthy <;> cases hie : err.isError <;> simp_all
    simp [onFail, hb]
  · intro err
    rfl
  · intro evts
    simpa using runFails_order evts (fun _ => none) []

/-- Witness for C5's amended theorem: appending a second genuine error. -/
theorem c5_fail_handler_amended_witness :
    onFail (some (JErr.mk "E1" true true [])) (JErr.mk "E2" true true [])
      = some (JErr.mk "E1" true true [JErr.mk "E2" true true []]) :=
  (c5_fail_handler_amended.1 (JErr.mk "E1" true true [])
    (JErr.mk "E2" true true []) rfl rfl).1

/- ## Presenter: `list(failures)` from base.js

Each `consoleLog(fmt, i + 1, testTitle, msg, stack)` call in the
`failures.forEach` loop is modelled as one `ListedBlock` carrying the
printed index `i + 1`, the test (by id), the rendered title path and the
identity of the error rendered in that block.  The mutable
`multipleTest` / `multipleErr` variables of the source are threaded as
fold state, and `multipleErr.shift()` is the head/tail split. -/

/-- A failed test as consumed by `list`: identity, `titlePath()` and its
`err`. -/
structure TestObj where
  tid : Nat
  titlePath : List String
  err : JErr

/-- One numbered output block of `list`. -/
structure ListedBlock where
  num : Nat
  tid : Nat
  title : String
  errName : String
deriving DecidableEq, Repr

/-- The `testTitle` accumulation of `list`: each level after the first is
preceded by `'\n     '` and indented two further spaces. -/
def renderTitleAux : List String → Nat → String
  | [], _ => ""
  | s :: rest, idx =>
    ((if idx ≠ 0 then "\n     " else "") ++ sRepeat idx "  " ++ s)
      ++ renderTitleAux rest (idx + 1)

/-- Rendering of `test.titlePath()` in `list`. -/
def renderTitle (path : List String) : String := renderTitleAux path 0

/-- The `failures.forEach` body of `list`: `i` is the running index,
`mTest`/`mErrs` the `multipleTest`/`multipleErr` state.  A test whose
error carries a `multiple` array is dealt the next error from the queue
`[test.err].concat(test.err.multiple)`, reinitialised whenever the test
changes; `shift()` on an exhausted queue yields JS `undefined`. -/
def listAux : List TestObj → Nat → Option Nat → List JErr → List ListedBlock
  | [], _, _, _ => []
  | t :: rest, i, mTest, mErrs =>
    match t.err.multiple with
    | [] =>
      ⟨i + 1, t.tid, renderTitle t.titlePath, t.err.name⟩
        :: listAux rest (i + 1) mTest mErrs
    | e0 :: etl =>
      if mTest = some t.tid then
        match mErrs with
        | e :: tl =>
          ⟨i + 1, t.tid, renderTitle t.titlePath, e.name⟩
            :: listAux rest (i + 1) mTest tl
        | [] =>
          ⟨i + 1, t.tid, renderTitle t.titlePath, "undefined"⟩
            :: listAux rest (i + 1) mTest []
      else
        ⟨i + 1, t.tid, renderTitle t.titlePath, t.err.name⟩
          :: listAux rest (i + 1) (some t.tid) (e0 :: etl)

/-- `list(failures)`: the sequence of numbered failure blocks. -/
def listBlocks (failures : List TestObj) : List ListedBlock :=
  listAux failures 0 none []

lemma listAux_nums (fs : List TestObj) :
    ∀ i mTest mErrs,
      (listAux fs i mTest mErrs).map ListedBlock.num
        = List.range' (i + 1) fs.length := by
  induction fs with
  | nil => intro i mt me; simp [listAux]
  | cons t rest ih =>
    intro i mt me
    simp only [listAux, List.length_cons, List.range'_succ]
    cases htm : t.err.multiple with
    | nil => simp [ih]
    | cons e0 etl =>
      by_cases hmt : mt = some t.tid
      · cases me with
        | nil => simp [hmt, ih]
        | cons e tl => simp [hmt, ih]
      · simp [hmt, ih]

/-- A test that failed twice: primary error `e1` with `multiple = [e2]`.
Its two fail events put it in the failures array twice. -/
def c7test : TestObj := ⟨0, ["suite", "test"], .mk "e1" true true [.mk "e2" true true []]⟩

/-- C7 counterexample: for a test with a primary error and one `multiple`
entry (hence listed twice in the failures array), `list` renders the
primary error under block number 1 and the `multiple` entry under block
number 2 — a different number, refuting the claim that all errors of one
test appear under the same, un-renumbered block. -/
theorem c7_same_block_number_counterexample :
    (listBlocks [c7test, c7test]).map (fun b => (b.num, b.tid, b.errName))
      = [(1, 0, "e1"), (2, 0, "e2")]
    ∧ (1 : Nat) ≠ 2 := by decide

/-- C7 (amended): block numbers increment by position in the failures
array, starting at 1; a test's primary error and each entry of its
`multiple` sequence are rendered in raise order, but across consecutive
separately-numbered blocks (one per fail event) rather than under one
shared block number. -/
theorem c7_failure_list_numbering_amended :
    (∀ failures : List TestObj,
      (listBlocks failures).map ListedBlock.num = List.range' 1 failures.length)
    ∧ (listBlocks [c7test, c7test]).map (fun b => (b.num, b.tid, b.errName))
        = [(1, 0, "e1"), (2, 0, "e2")] := by
  refine ⟨?_, by decide⟩
  intro failures
  simpa using listAux_nums failures 0 none []

/- ## JSON reporter: `cleanCycles` (json.js)

`cleanCycles(obj)` runs `JSON.parse(JSON.stringify(obj, replacer))` with a
replacer that keeps a `cache` of every object already visited and replaces
a re-visited object by its string form `'' + value` (for a plain object,
`"[object Object]"`).  The embedding walks the object graph exactly as
`JSON.stringify` invokes the replacer: top-down, fields in order, sharing
one ever-growing cache, producing directly the acyclic value tree that the
parse-of-stringify round trip yields.  Objects live in a heap indexed by
`Nat` (`jref`); primitives pass through. -/

/-- A JS value as serialised by the JSON reporter. -/
inductive JVal : Type where
  | jnull
  | jbool (b : Bool)
  | jnum (n : Int)
  | jstr (s : String)
  | jref (r : Nat)
deriving DecidableEq, Repr

/-- The acyclic result tree of `cleanCycles` (what `JSON.parse` returns). -/
inductive CTree : Type where
  | cnull
  | cbool (b : Bool)
  | cnum (n : Int)
  | cstr (s : String)
  | cobj (fields : List (String × CTree))
deriving Repr

/-- Field-by-field traversal of one object's properties, in property
order, threading the shared replacer cache through `walk`. -/
def cleanFieldsF (walk : List Nat → JVal → Option (CTree × List Nat)) :
    List Nat → List (String × JVal) → Option (List (String × CTree) × List Nat)
  | cache, [] => some ([], cache)
  | cache, (k, v) :: rest =>
    match walk cache v with
    | none => none
    | some (t, cache1) =>
      match cleanFieldsF walk cache1 rest with
      | none => none
      | some (ts, cache2) => some ((k, t) :: ts, cache2)

/-- The replacer walk of `cleanCycles`: a non-null object value already in
the cache is replaced by the string `'' + value` (`"[object Object]"`);
otherwise it is pushed onto the cache and its fields are serialised.  The
`fuel` makes the possibly-cyclic traversal explicit; the theorems show
heap-size-plus-one fuel never runs out. -/
def cleanWalk (heap : Nat → List (String × JVal)) :
    Nat → List Nat → JVal → Option (CTree × List Nat)
  | _, cache, .jnull => some (.cnull, cache)
  | _, cache, .jbool b => some (.cbool b, cache)
  | _, cache, .jnum n => some (.cnum n, cache)
  | _, cache, .jstr s => some (.cstr s, cache)
  | 0, _, .jref _ => none
  | fuel + 1, cache, .jref r =>
    if r ∈ cache then some (.cstr "[object Object]", cache)
    else
      match cleanFieldsF (cleanWalk heap fuel) (r :: cache) (heap r) with
      | none => none
      | some (fs, cache2) => some (.cobj fs, cache2)

/-- A heap is well-formed for size `n` when every object reference stored
in a field of an object below `n` points below `n`. -/
def heapWF (heap : Nat → List (String × JVal)) (n : Nat) : Prop :=
  ∀ i, i < n → ∀ kv ∈ heap i, ∀ r, kv.2 = JVal.jref r → r < n

/-- A value is well-formed for size `n` when any reference it carries
points below `n`. -/
def valWF (n : Nat) (v : JVal) : Prop := ∀ r, v = JVal.jref r → r < n

lemma cleanFieldsF_cache_suffix (walk : List Nat → JVal → Option (CTree × List Nat))
    (hwalk : ∀ cache v t c', walk cache v = some (t, c') → cache <:+ c') :
    ∀ (l : List (String × JVal)) cache ts c',
      cleanFieldsF walk cache l = some (ts, c') → cache <:+ c' := by
  intro l
  induction l with
  | nil =>
    intro cache ts c' h
    simp only [cleanFieldsF, Option.some.injEq, Prod.mk.injEq] at h
    obtain ⟨-, rfl⟩ := h
    exact List.suffix_refl _
  | cons hd tl ih =>
    intro cache ts c' h
    obtain ⟨k, v⟩ := hd
    simp only [cleanFieldsF] at h
    cases hw : walk cache v with
    | none => rw [hw] at h; exact Option.noConfusion h
    | some tc =>
      obtain ⟨t, cache1⟩ := tc
      simp only [hw] at h
      cases hrest : cleanFieldsF walk cache1 tl with
      | none => rw [hrest] at h; exact Option.noConfusion h
      | some pc =>
        obtain ⟨ts2, cache2⟩ := pc
        simp only [hrest, Option.some.injEq, Prod.mk.injEq] at h
        obtain ⟨-, rfl⟩ := h
        exact (hwalk cache v t cache1 hw).trans (ih cache1 ts2 cache2 hrest)

lemma cleanWalk_cache_suffix (heap : Nat → List (String × JVal)) :
    ∀ fuel cache v t c', cleanWalk heap fuel cache v = some (t, c') → cache <:+ c' := by
  intro fuel
  induction fuel with
  | zero =>
    intro cache v t c' h
    cases v with
    | jnull =>
      simp only [cleanWalk, Option.some.injEq, Prod.mk.injEq] at h
      obtain ⟨-, rfl⟩ := h
      exact List.suffix_refl _
    | jbool b =>
      simp only [cleanWalk, Option.some.injEq, Prod.mk.injEq] at h
      obtain ⟨-, rfl⟩ := h
      exact List.suffix_refl _
    | jnum m =>
      simp only [cleanWalk, Option.some.injEq, Prod.mk.injEq] at h
      obtain ⟨-, rfl⟩ := h
      exact List.suffix_refl _
    | jstr s =>
      simp only [cleanWalk, Option.some.injEq, Prod.mk.injEq] at h
      obtain ⟨-, rfl⟩ := h
      exact List.suffix_refl _
    | jref r => exact Option.noConfusion h
  | succ f ih =>
    intro cache v t c' h
    cases v with
    | jnull =>
      simp only [cleanWalk, Option.some.injEq, Prod.mk.injEq] at h
      obtain ⟨-, rfl⟩ := h
      exact List.suffix_refl _
    | jbool b =>
      simp only [cleanWalk, Option.some.injEq, Prod.mk.injEq] at h
      obtain ⟨-, rfl⟩ := h
      exact List.suffix_refl _
    | jnum m =>
      simp only [cleanWalk, Option.some.injEq, Prod.mk.injEq] at h
      obtain ⟨-, rfl⟩ := h
      exact List.suffix_refl _
    | jstr s =>
      simp only [cleanWalk, Option.some.injEq, Prod.mk.injEq] at h
      obtain ⟨-, rfl⟩ := h
      exact List.suffix_refl _
    | jref r =>
      simp only [cleanWalk] at h
      by_cases hmem : r ∈ cache
      · rw [if_pos hmem] at h
        simp only [Option.some.injEq, Prod.mk.injEq] at h
        obtain ⟨-, rfl⟩ := h
        exact List.suffix_refl _
      · rw [if_neg hmem] at h
        cases hfs : cleanFieldsF (cleanWalk heap f) (r :: cache) (heap r) with
        | none => rw [hfs] at h; exact Option.noConfusion h
        | some pc =>
          obtain ⟨fs, cache2⟩ := pc
          simp only [hfs, Option.some.injEq, Prod.mk.injEq] at h
          obtain ⟨-, rfl⟩ := h
          exact (List.suffix_cons r cache).trans
            (cleanFieldsF_cache_suffix (cleanWalk heap f) ih (heap r) (r :: cache)
              fs cache2 hfs)

lemma cleanWalk_isSome (heap : Nat → List (String × JVal)) (n : Nat)
    (hwf : heapWF heap n) :
    ∀ fuel cache v, valWF n v → freeCount n cache < fuel →
      (cleanWalk heap fuel cache v).isSome := by
  intro fuel
  induction fuel with
  | zero => intro cache v _ hfc; omega
  | succ f ih =>
    have hfields : ∀ (l : List (String × JVal)) cache,
        (∀ kv ∈ l, valWF n kv.2) → freeCount n cache < f →
        (cleanFieldsF (cleanWalk heap f) cache l).isSome := by
      intro l
      induction l with
      | nil => intro cache _ _; simp [cleanFieldsF]
      | cons hd tl ihl =>
        intro cache hv hfc
        obtain ⟨k, v⟩ := hd
        have hw := ih cache v (hv (k, v) (by simp)) hfc
        cases hwv : cleanWalk heap f cache v with
        | none => rw [hwv] at hw; exact absurd hw (by simp)
        | some tc =>
          obtain ⟨t, cache1⟩ := tc
          have hsuf := cleanWalk_cache_suffix heap f cache v t cache1 hwv
          have hfc1 : freeCount n cache1 < f :=
            lt_of_le_of_lt (freeCount_mono n cache cache1 (fun x hx => hsuf.subset hx)) hfc
          have hrest := ihl cache1 (fun kv hkv => hv kv (by simp [hkv])) hfc1
          simp only [cleanFieldsF, hwv]
          cases hr2 : cleanFieldsF (cleanWalk heap f) cache1 tl with
          | none => rw [hr2] at hrest; exact absurd hrest (by simp)
          | some pc =>
            obtain ⟨ts, c2⟩ := pc
            simp [hr2]
    intro cache v hv hfc
    cases v with
    | jnull => simp [cleanWalk]
    | jbool b => simp [cleanWalk]
    | jnum m => simp [cleanWalk]
    | jstr s => simp [cleanWalk]
    | jref r =>
      simp only [cleanWalk]
      by_cases hmem : r ∈ cache
      · simp [hmem]
      · rw [if_neg hmem]
        have hrn : r < n := hv r rfl
        have hfc2 : freeCount n (r :: cache) < f := by
          have := freeCount_cons_lt n r cache hrn hmem
          omega
        have hfields2 := hfields (heap r) (r :: cache)
          (fun kv hkv r' hr' => hwf r hrn kv hkv r' hr') hfc2
        cases hfs : cleanFieldsF (cleanWalk heap f) (r :: cache) (heap r) with
        | none => rw [hfs] at hfields2; exact absurd hfields2 (by simp)
        | some pc =>
          obtain ⟨fs, c2⟩ := pc
          simp [hfs]

lemma cleanFieldsF_marker (walk : List Nat → JVal → Option (CTree × List Nat))
    (hmark : ∀ cache r, r ∈ cache →
      walk cache (.jref r) = some (.cstr "[object Object]", cache))
    (hsuf : ∀ cache v t c', walk cache v = some (t, c') → cache <:+ c') :
    ∀ (l : List (String × JVal)) cache ts c' k r,
      r ∈ cache → cleanFieldsF walk cache l = some (ts, c') →
      (k, JVal.jref r) ∈ l → (k, CTree.cstr "[object Object]") ∈ ts := by
  intro l
  induction l with
  | nil => intro cache ts c' k r _ _ hmem; simp at hmem
  | cons hd tl ih =>
    intro cache ts c' k r hrc h hmem
    obtain ⟨k0, v0⟩ := hd
    simp only [cleanFieldsF] at h
    cases hw : walk cache v0 with
    | none => rw [hw] at h; exact Option.noConfusion h
    | some tc =>
      obtain ⟨t, cache1⟩ := tc
      simp only [hw] at h
      cases hrest : cleanFieldsF walk cache1 tl with
      | none => rw [hrest] at h; exact Option.noConfusion h
      | some pc =>
        obtain ⟨ts2, cache2⟩ := pc
        simp only [hrest, Option.some.injEq, Prod.mk.injEq] at h
        obtain ⟨hts, -⟩ := h
        rcases List.mem_cons.mp hmem with hhead | htail
        · obtain ⟨hk, hv⟩ := Prod.mk.injEq _ _ _ _ |>.mp hhead
          subst hv
          rw [hmark cache r hrc] at hw
          simp only [Option.some.injEq, Prod.mk.injEq] at hw
          rw [← hts, ← hw.1, hk]
          exact List.mem_cons_self _ _
        · have hr1 : r ∈ cache1 := (hsuf cache v0 t cache1 hw).subset hrc
          rw [← hts]
          exact List.mem_cons_of_mem _ (ih cache1 ts2 cache2 k r hr1 hrest htail)

/-- C9: for every well-formed heap and every object containing a
self-reference, the circular-reference cleaner of the JSON reporter
returns a value (no exception, no unbounded recursion — heap-size-plus-one
fuel suffices), and in the cleaned result the self-referencing field holds
the string marker `"[object Object]"` (the object's string form) instead
of a structural cycle; the result type `CTree` is a finite tree, hence
JSON-serialisable. -/
theorem c9_cleanCycles_self_reference (heap : Nat → List (String × JVal)) (n : Nat)
    (hwf : heapWF heap n) (root : Nat) (hroot : root < n) (fld : String)
    (hfield : (fld, JVal.jref root) ∈ heap root) :
    (cleanWalk heap (n + 1) [] (.jref root)).isSome
    ∧ (∀ t c', cleanWalk heap (n + 1) [] (.jref root) = some (t, c') →
        ∃ fs, t = CTree.cobj fs ∧ (fld, CTree.cstr "[object Object]") ∈ fs) := by
  constructor
  · exact cleanWalk_isSome heap n hwf (n + 1) [] (.jref root)
      (fun r hr => by cases hr; exact hroot)
      (by rw [freeCount_nil]; omega)
  · intro t c' h
    simp only [cleanWalk] at h
    rw [if_neg (by simp)] at h
    cases hfs : cleanFieldsF (cleanWalk heap n) (root :: []) (heap root) with
    | none => rw [hfs] at h; exact Option.noConfusion h
    | some pc =>
      obtain ⟨fs, cache2⟩ := pc
      simp only [hfs, Option.some.injEq, Prod.mk.injEq] at h
      obtain ⟨ht, -⟩ := h
      refine ⟨fs, ht.symm, ?_⟩
      obtain ⟨m, rfl⟩ : ∃ m, n = m + 1 := ⟨n - 1, by omega⟩
      exact cleanFieldsF_marker (cleanWalk heap (m + 1))
        (fun cache r hr => by simp [cleanWalk, hr])
        (cleanWalk_cache_suffix heap (m + 1))
        (heap root) [root] fs cache2 fld root (by simp) hfs hfield

/-- A one-object heap whose object holds a primitive field and a field
referring to itself. -/
def selfHeap : Nat → List (String × JVal) := fun i =>
  match i with
  | 0 => [("a", .jnum 1), ("self", .jref 0)]
  | _ => []

/-- Witness for C9 at the concrete self-referential object. -/
theorem c9_cleanCycles_self_reference_witness :
    (cleanWalk selfHeap 2 [] (.jref 0)).isSome :=
  (c9_cleanCycles_self_reference selfHeap 1
    (fun i hi kv hkv r hr => by
      have hi0 : i = 0 := by omega
      subst hi0
      simp only [selfHeap, List.mem_cons, List.not_mem_nil, or_false,
        List.mem_singleton] at hkv
      rcases hkv with rfl | rfl
      · exact absurd hr (by simp)
      · injection hr with h2
        omega)
    0 (by omega) "self" (by simp [selfHeap])).1

/- ## XUnit reporter: the root `<testsuite>` element (xunit.js)

`utils.escape` lives in lib/utils.js, which is not among the provided
sources; it is modelled from the spec as standard XML escaping of the
five special characters, which is the identity on the digit strings the
claim concerns.  Counters are JS numbers (`Int` here); the `time`
attribute `stats.duration / 1000 || 0` uses real division, modelled on
rationals (`x || 0` only rewrites a falsy `0` to `0`, which is the
identity on rational values). -/

/-- Modelled from the spec: `utils.escape` from lib/utils.js (not among the
provided sources), used by the XUnit reporter on every attribute value and
text node; modelled as standard XML character escaping. -/
def xmlEscape (s : String) : String :=
  s.toList.foldr
    (fun c acc =>
      (if c = '&' then "&amp;"
       else if c = '<' then "&lt;"
       else if c = '>' then "&gt;"
       else if c = '"' then "&quot;"
       else if c.toNat = 39 then "&#39;"
       else String.singleton c) ++ acc)
    ""

/-- A JS attribute value in the `attrs` object passed to `tag`. -/
inductive AttrVal : Type where
  | str (s : String)
  | int (n : Int)
  | rat (q : ℚ)
deriving DecidableEq, Repr

/-- JS stringification of an attribute value as it reaches `escape`. -/
def attrValText : AttrVal → String
  | .str s => s
  | .int n => toString n
  | .rat q => toString q

/-- `Array.prototype.join(sep)` over the rendered attribute pairs. -/
def sepJoin : List String → String → String
  | [], _ => ""
  | [x], _ => x
  | x :: y :: rest, sep => x ++ sep ++ sepJoin (y :: rest) sep

/-- The `tag(name, attrs, close, content)` helper of xunit.js: renders
`key="escaped value"` pairs in order, a self-closing or open tag, and an
optional content plus closing tag. -/
def tag (name : String) (attrs : List (String × AttrVal)) (close : Bool)
    (content : Option String) : String :=
  let endStr := if close then "/>" else ">"
  let pairs := attrs.map (fun kv => kv.1 ++ "=\"" ++ xmlEscape (attrValText kv.2) ++ "\"")
  let t := "<" ++ name ++ (if pairs.isEmpty then "" else " " ++ sepJoin pairs " ") ++ endStr
  match content with
  | some c => t ++ c ++ "</" ++ name ++ endStr
  | none => t

/-- The stats fields read by the XUnit EVENT_RUN_END handler. -/
structure XStats where
  tests : Int
  passes : Int
  failures : Int
  duration : ℚ
deriving DecidableEq, Repr

/-- The attribute object of the root `<testsuite>` element, exactly as
built in the `runner.once(EVENT_RUN_END, ...)` handler of xunit.js. -/
def xunitRootAttrs (suiteName timestamp : String) (stats : XStats) :
    List (String × AttrVal) :=
  [("name", .str suiteName),
   ("tests", .int stats.tests),
   ("failures", .int 0),
   ("errors", .int stats.failures),
   ("skipped", .int (stats.tests - stats.failures - stats.passes)),
   ("timestamp", .str timestamp),
   ("time", .rat (stats.duration / 1000))]

lemma sAppend_empty (s : String) : s ++ "" = s := by
  cases s with
  | mk d => exact congrArg String.mk (List.append_nil d)

lemma sEmpty_append (s : String) : "" ++ s = s := by
  cases s with
  | mk d => exact congrArg String.mk (List.nil_append d)

lemma sepJoin_contains (sep : String) :
    ∀ (l : List String) (x : String), x ∈ l →
      ∃ a b, sepJoin l sep = a ++ x ++ b := by
  intro l
  induction l with
  | nil => intro x hx; simp at hx
  | cons y rest ih =>
    intro x hx
    rcases List.mem_cons.mp hx with rfl | hx2
    · cases rest with
      | nil =>
        exact ⟨"", "", by simp [sepJoin, sAppend_empty, sEmpty_append]⟩
      | cons z zs =>
        refine ⟨"", sep ++ sepJoin (z :: zs) sep, ?_⟩
        simp [sepJoin, String.append_assoc, sEmpty_append]
    · cases rest with
      | nil => simp at hx2
      | cons z zs =>
        obtain ⟨a, b, hab⟩ := ih x hx2
        refine ⟨y ++ sep ++ a, b, ?_⟩
        simp only [sepJoin, hab]
        simp [String.append_assoc]

lemma tag_contains_pair (name : String) (attrs : List (String × AttrVal))
    (p : String)
    (hp : p ∈ attrs.map (fun kv => kv.1 ++ "=\"" ++ xmlEscape (attrValText kv.2) ++ "\"")) :
    ∃ pre post, tag name attrs false none = pre ++ p ++ post := by
  have hne : (attrs.map (fun kv => kv.1 ++ "=\"" ++ xmlEscape (attrValText kv.2) ++ "\"")).isEmpty = false := by
    cases hl : attrs.map (fun kv => kv.1 ++ "=\"" ++ xmlEscape (attrValText kv.2) ++ "\"") with
    | nil => rw [hl] at hp; simp at hp
    | cons q qs => simp
  obtain ⟨a, b, hab⟩ := sepJoin_contains " "
    (attrs.map (fun kv => kv.1 ++ "=\"" ++ xmlEscape (attrValText kv.2) ++ "\"")) p hp
  refine ⟨"<" ++ name ++ " " ++ a, b ++ ">", ?_⟩
  simp only [tag, hne, Bool.false_eq_true, if_false, hab]
  simp [String.append_assoc]

/-- C10: the XUnit reporter's root `<testsuite>` element always carries
the attribute `failures="0"`, reports the run's failure count under the
`errors` attribute instead, and computes `skipped` as
`stats.tests - stats.failures - stats.passes`; the serialised open tag
therefore always contains the literal text `failures="0"`. -/
theorem c10_xunit_root_attrs (suiteName timestamp : String) (stats : XStats) :
    (xunitRootAttrs suiteName timestamp stats).lookup "failures" = some (.int 0)
    ∧ (xunitRootAttrs suiteName timestamp stats).lookup "errors"
        = some (.int stats.failures)
    ∧ (xunitRootAttrs suiteName timestamp stats).lookup "skipped"
        = some (.int (stats.tests - stats.failures - stats.passes))
    ∧ ∃ pre post,
        tag "testsuite" (xunitRootAttrs suiteName timestamp stats) false none
          = pre ++ "failures=\"0\"" ++ post := by
  refine ⟨rfl, rfl, rfl, ?_⟩
  apply tag_contains_pair
  simp only [xunitRootAttrs, List.map_cons, List.mem_cons]
  refine Or.inr (Or.inr (Or.inl ?_))
  decide

/- ## Presenter: `Base.prototype.epilogue` and the full text output of
`list(failures)` (base.js)

The epilogue's only non-trivial output component is the per-failure block:
`list()` flattens each error with `getFullErrorStack`, optionally prefixes
`Uncaught `, and — when `!hideDiff && showDiff(err)` — first calls
`stringifyDiffObjs(err)`, which MUTATES `err.actual`/`err.expected`
in place (replacing non-string values by their `utils.stringify` form)
before `generateDiff(err.actual, err.expected)` renders the diff.  The
embedding therefore keeps the errors in a mutable store threaded through
rendering, and the idempotence theorem proves that the second render over
the mutated store produces identical output: the mutation is idempotent,
preserves every field that the flattener and the queue logic read, and
leaves `showDiff` true whenever it was true.

External collaborators are parameters, as for the diff engine:
`stringifyFn` is `utils.stringify` (lib/utils.js is not among the provided
sources), `core` the `diff` npm package and `msFmt` the `ms` package. -/

/-- A JS value held in `err.actual` / `err.expected`: `undefined`, a
string, a number, or some other object carrying its
`Object.prototype.toString` class tag. -/
inductive JSVal : Type where
  | undef
  | vstr (s : String)
  | vnum (q : ℚ)
  | vobj (cls : String)
deriving DecidableEq, Repr

/-- `utils.isString(v)`. -/
def JSVal.isString : JSVal → Bool
  | .vstr _ => true
  | _ => false

/-- `Object.prototype.toString.call(v)`, as compared by `sameType`. -/
def typeTag : JSVal → String
  | .undef => "[object Undefined]"
  | .vstr _ => "[object String]"
  | .vnum _ => "[object Number]"
  | .vobj cls => cls

/-- The string a value contributes to `generateDiff`; in the diff branch
both operands are guaranteed strings (post-`stringifyDiffObjs`), so the
non-string fallback is unreachable there. -/
def jsStr : JSVal → String
  | .vstr s => s
  | _ => ""

/-- An error object as rendered by `list`: the flattener's fields
(`inspect`/`message`/`stack`/`cause`, cf. `ErrNode`), the `uncaught` flag,
`showDiff !== false`, the diff operands, and the `multiple` array (ids
into the error store; `[]` encodes the absent property). -/
structure RErr where
  inspect : Option String
  message : String
  stack : String
  cause : Option Nat
  uncaught : Bool
  showDiffFlag : Bool
  actual : JSVal
  expected : JSVal
  multiple : List Nat
deriving DecidableEq, Repr

/-- The flattener's view of an error: exactly the fields
`getFullErrorStack` reads. -/
def toErrNode (r : RErr) : ErrNode := ⟨r.inspect, r.message, r.stack, r.cause⟩

/-- `showDiff(err)` from base.js: `err.showDiff !== false`, same runtime
type of actual and expected, and defined expected. -/
def showDiffJs (err : RErr) : Bool :=
  err.showDiffFlag && decide (typeTag err.actual = typeTag err.expected)
    && decide (err.expected ≠ JSVal.undef)

/-- `stringifyDiffObjs(err)`: when actual or expected is not a string,
replace both by their `utils.stringify` form — the in-place mutation the
source performs on the error while rendering its diff. -/
def stringifyDiffObjs (stringifyFn : JSVal → String) (err : RErr) : RErr :=
  if !err.actual.isString || !err.expected.isString then
    { err with actual := .vstr (stringifyFn err.actual),
               expected := .vstr (stringifyFn err.expected) }
  else err

/-- The regex test `message.match(/^([^:]+): expected/)`: the capture
`[^:]+` cannot span a colon, so the match succeeds exactly when the first
colon exists, is not at index 0, and is followed by `" expected"`; the
capture is the prefix before that colon. -/
def matchErrorExpected (message : String) : Option String :=
  match sIndexOf message ":" with
  | none => none
  | some k =>
    if k = 0 then none
    else if (": expected").toList.isPrefixOf ((sDrop message k).toList) then
      some (sTake message k)
    else none

/-- `stack.replace(/^/gm, '  ')`: two spaces at the start of the string
and after every newline (including a trailing one). -/
def indentAux : List Char → List Char
  | [] => []
  | c :: t => if c = '\n' then '\n' :: ' ' :: ' ' :: indentAux t else c :: indentAux t

/-- The stack indentation performed by `list` just before logging. -/
def indentLines (s : String) : String := ⟨' ' :: ' ' :: indentAux s.toList⟩

/-- `console.log(fmt, ...args)` substitution: each `%s`/`%d` consumes the
next argument (numbers are passed pre-stringified). -/
def formatS : List Char → List String → List Char
  | [], _ => []
  | '%' :: 's' :: rest, a :: args => a.toList ++ formatS rest args
  | '%' :: 'd' :: rest, a :: args => a.toList ++ formatS rest args
  | c :: rest, args => c :: formatS rest args

/-- One `consoleLog(fmt, ...)` call's final text. -/
def formatLog (fmt : String) (args : List String) : String := ⟨formatS fmt.toList args⟩

/-- A failed test as held in `this.failures`: identity, `titlePath()`, and
the id of its `err` in the error store. -/
structure RTest where
  tid : Nat
  titlePath : List String
  err : Nat
deriving DecidableEq, Repr

/-- The run statistics read by the epilogue (`stats.passes || 0`,
`stats.pending`, `stats.failures`, `stats.duration` in milliseconds). -/
structure RunStats where
  passes : Nat
  pending : Nat
  failures : Nat
  duration : Nat
deriving DecidableEq, Repr

/-- The reporter state the epilogue touches: `this.stats`,
`this.failures`, and the error objects those failures reference (mutable
through `stringifyDiffObjs`); `nErr` bounds the error graph, giving the
flattener's fuel as in the C1 development. -/
structure PresenterState where
  stats : RunStats
  errs : Nat → RErr
  nErr : Nat
  failures : List RTest

/-- Point update of the error store (the in-place JS mutation). -/
def updStore (errs : Nat → RErr) (i : Nat) (x : RErr) : Nat → RErr :=
  fun j => if j = i then x else errs j

/-- `getFullErrorStack(err)` as called by `list` (fresh `seen`), with the
inert record on fuel exhaustion (unreachable on well-formed graphs by the
C1 development). -/
def flattenAt (env : Nat → ErrNode) (fuel e : Nat) : FullErrorStack :=
  (getFullErrorStack env fuel e []).getD ⟨"", "", ""⟩

/-- The `Uncaught ` prefix applied to the flattened `msg`. -/
def blockMsg0 (flat : FullErrorStack) (x : RErr) : String :=
  if x.uncaught then "Uncaught " ++ flat.msg else flat.msg

/-- The logged text of a block whose diff is shown: diff-style format, the
`([^:]+): expected` message trim, `generateDiff` on the (post-mutation,
hence string) operands of `x2`, indented stack. -/
def diffBlockLine (cfg : DiffCfg) (core : Bool → String → String → Except String String)
    (flat : FullErrorStack) (x2 : RErr) (msg0 : String) (num : Nat) (title : String) :
    String :=
  formatLog
    (color cfg.useColors "error title" "  %s) %s:\n%s"
      ++ color cfg.useColors "error stack" "\n%s\n")
    [toString num, title,
     "\n      " ++ color cfg.useColors "error message"
         ((matchErrorExpected flat.message).getD msg0)
       ++ generateDiff cfg core (jsStr x2.actual) (jsStr x2.expected),
     indentLines flat.stack]

/-- The logged text of a block without a diff: plain message format,
indented stack. -/
def plainBlockLine (cfg : DiffCfg) (flat : FullErrorStack) (msg0 : String)
    (num : Nat) (title : String) : String :=
  formatLog
    (color cfg.useColors "error title" "  %s) %s:\n"
      ++ color cfg.useColors "error message" "     %s"
      ++ color cfg.useColors "error stack" "\n%s\n")
    [toString num, title, msg0, indentLines flat.stack]

/-- One numbered block of `list`: flatten the error, apply the `Uncaught `
prefix, then — when `!hideDiff && showDiff(err)` — perform the
`stringifyDiffObjs` mutation and log the diff-style block, else log the
plain block.  Returns the logged text and the (possibly mutated) error
store. -/
def renderErrBlock (cfg : DiffCfg) (core : Bool → String → String → Except String String)
    (stringifyFn : JSVal → String) (hideDiff : Bool) (fuel : Nat)
    (errs : Nat → RErr) (e : Nat) (num : Nat) (title : String) :
    String × (Nat → RErr) :=
  if !hideDiff && showDiffJs (errs e) then
    (diffBlockLine cfg core (flattenAt (fun j => toErrNode (errs j)) fuel e)
       (stringifyDiffObjs stringifyFn (errs e))
       (blockMsg0 (flattenAt (fun j => toErrNode (errs j)) fuel e) (errs e)) num title,
     updStore errs e (stringifyDiffObjs stringifyFn (errs e)))
  else
    (plainBlockLine cfg (flattenAt (fun j => toErrNode (errs j)) fuel e)
       (blockMsg0 (flattenAt (fun j => toErrNode (errs j)) fuel e) (errs e)) num title,
     errs)

/-- The `failures.forEach` loop of `list` with full text output: the
`multipleTest`/`multipleErr` queue exactly as in `listAux` (the C7 block
model), each dealt error rendered by `renderErrBlock`, the store threaded
left to right; `shift()` on an exhausted queue yields JS `undefined` and
would crash the flattener, kept total here as an inert line. -/
def listRenderAux (cfg : DiffCfg) (core : Bool → String → String → Except String String)
    (stringifyFn : JSVal → String) (hideDiff : Bool) (fuel : Nat) :
    List RTest → Nat → Option Nat → List Nat → (Nat → RErr) →
    List String × (Nat → RErr)
  | [], _, _, _, errs => ([], errs)
  | t :: rest, i, mTest, mErrs, errs =>
    match (errs t.err).multiple with
    | [] =>
      let b := renderErrBlock cfg core stringifyFn hideDiff fuel errs t.err (i + 1)
        (renderTitle t.titlePath)
      let r := listRenderAux cfg core stringifyFn hideDiff fuel rest (i + 1) mTest mErrs b.2
      (b.1 :: r.1, r.2)
    | e0 :: etl =>
      if mTest = some t.tid then
        match mErrs with
        | e :: tl =>
          let b := renderErrBlock cfg core stringifyFn hideDiff fuel errs e (i + 1)
            (renderTitle t.titlePath)
          let r := listRenderAux cfg core stringifyFn hideDiff fuel rest (i + 1) mTest tl b.2
          (b.1 :: r.1, r.2)
        | [] =>
          let r := listRenderAux cfg core stringifyFn hideDiff fuel rest (i + 1) mTest [] errs
          ("undefined" :: r.1, r.2)
      else
        let b := renderErrBlock cfg core stringifyFn hideDiff fuel errs t.err (i + 1)
          (renderTitle t.titlePath)
        let r := listRenderAux cfg core stringifyFn hideDiff fuel rest (i + 1) (some t.tid)
          (e0 :: etl) b.2
        (b.1 :: r.1, r.2)

/-- `list(failures)`: the leading `consoleLog()` blank line, then the
numbered blocks; fresh `multipleTest`/`multipleErr` per call (they are
locals of `list`). -/
def listRender (cfg : DiffCfg) (core : Bool → String → String → Except String String)
    (stringifyFn : JSVal → String) (hideDiff : Bool) (fuel : Nat)
    (failures : List RTest) (errs : Nat → RErr) : List String × (Nat → RErr) :=
  ("" :: (listRenderAux cfg core stringifyFn hideDiff fuel failures 0 none [] errs).1,
   (listRenderAux cfg core stringifyFn hideDiff fuel failures 0 none [] errs).2)

/-- `Base.prototype.epilogue`: blank line; pass line (count and humanised
duration); pending-count line when non-zero; when there are failures, the
failing-count line, `list(this.failures)` and a blank line; final blank
line.  Returns the logged lines and the state with the error store as
`list` left it. -/
def epilogueRender (cfg : DiffCfg) (core : Bool → String → String → Except String String)
    (stringifyFn : JSVal → String) (hideDiff : Bool) (msFmt : Nat → String)
    (st : PresenterState) : List String × PresenterState :=
  let stats := st.stats
  let passLine := formatLog
    (color cfg.useColors "bright pass" " "
      ++ color cfg.useColors "green" " %d passing"
      ++ color cfg.useColors "light" " (%s)")
    [toString stats.passes, msFmt stats.duration]
  let pendingLines := if stats.pending = 0 then []
    else [formatLog
      (color cfg.useColors "pending" " " ++ color cfg.useColors "pending" " %d pending")
      [toString stats.pending]]
  if stats.failures = 0 then
    (["", passLine] ++ pendingLines ++ [""], st)
  else
    (["", passLine] ++ pendingLines
      ++ [formatLog (color cfg.useColors "fail" "  %d failing") [toString stats.failures]]
      ++ (listRender cfg core stringifyFn hideDiff (st.nErr + 1) st.failures st.errs).1
      ++ ["", ""],
     { st with errs := (listRender cfg core stringifyFn hideDiff (st.nErr + 1)
         st.failures st.errs).2 })

lemma sdo_toErrNode (f : JSVal → String) (x : RErr) :
    toErrNode (stringifyDiffObjs f x) = toErrNode x := by
  unfold stringifyDiffObjs
  split <;> rfl

lemma sdo_uncaught (f : JSVal → String) (x : RErr) :
    (stringifyDiffObjs f x).uncaught = x.uncaught := by
  unfold stringifyDiffObjs
  split <;> rfl

lemma sdo_multiple (f : JSVal → String) (x : RErr) :
    (stringifyDiffObjs f x).multiple = x.multiple := by
  unfold stringifyDiffObjs
  split <;> rfl

lemma sdo_isString (f : JSVal → String) (x : RErr) :
    (stringifyDiffObjs f x).actual.isString = true
    ∧ (stringifyDiffObjs f x).expected.isString = true := by
  unfold stringifyDiffObjs
  split
  · exact ⟨rfl, rfl⟩
  · next hcond =>
    simp only [Bool.or_eq_true, Bool.not_eq_true', not_or] at hcond
    constructor
    · simpa using hcond.1
    · simpa using hcond.2

lemma sdo_idem (f : JSVal → String) (x : RErr) :
    stringifyDiffObjs f (stringifyDiffObjs f x) = stringifyDiffObjs f x := by
  have h := sdo_isString f x
  rw [stringifyDiffObjs]
  simp [h.1, h.2]

lemma sdo_showDiff (f : JSVal → String) (x : RErr) (h : showDiffJs x = true) :
    showDiffJs (stringifyDiffObjs f x) = true := by
  unfold stringifyDiffObjs
  split
  · simp only [showDiffJs, Bool.and_eq_true] at h
    simp [showDiffJs, typeTag, h.1.1]
  · exact h

/-- The relation between the error store before and after a render pass:
each entry is unchanged, or has gone through the `stringifyDiffObjs`
mutation of an error whose diff was shown. -/
def mutOnly (f : JSVal → String) (S T : Nat → RErr) : Prop :=
  ∀ j, T j = S j ∨ (T j = stringifyDiffObjs f (S j) ∧ showDiffJs (S j) = true)

lemma mutOnly_refl (f : JSVal → String) (S : Nat → RErr) : mutOnly f S S :=
  fun _ => Or.inl rfl

lemma mutOnly_trans (f : JSVal → String) (S1 S2 S3 : Nat → RErr)
    (h12 : mutOnly f S1 S2) (h23 : mutOnly f S2 S3) : mutOnly f S1 S3 := by
  intro j
  rcases h12 j with h2 | ⟨h2, hs2⟩ <;> rcases h23 j with h3 | ⟨h3, hs3⟩
  · left; rw [h3, h2]
  · right; rw [h2] at h3 hs3; exact ⟨h3, hs3⟩
  · right; rw [h3]; exact ⟨h2, hs2⟩
  · right
    refine ⟨?_, hs2⟩
    rw [h3, h2, sdo_idem]

lemma mutOnly_multiple (f : JSVal → String) (S T : Nat → RErr)
    (h : mutOnly f S T) (j : Nat) : (T j).multiple = (S j).multiple := by
  rcases h j with hj | ⟨hj, -⟩
  · rw [hj]
  · rw [hj, sdo_multiple]

lemma mutOnly_env (f : JSVal → String) (S T : Nat → RErr) (h : mutOnly f S T) :
    (fun j => toErrNode (T j)) = (fun j => toErrNode (S j)) := by
  funext j
  rcases h j with hj | ⟨hj, -⟩
  · rw [hj]
  · rw [hj, sdo_toErrNode]


lemma blockMsg0_sdo (f : JSVal → String) (flat : FullErrorStack) (x : RErr) :
    blockMsg0 flat (stringifyDiffObjs f x) = blockMsg0 flat x := by
  unfold blockMsg0
  rw [sdo_uncaught]

lemma renderErrBlock_rel (cfg : DiffCfg) (core : Bool → String → String → Except String String)
    (f : JSVal → String) (hideDiff : Bool) (fuel : Nat) (S T : Nat → RErr)
    (h : mutOnly f S T) (e num : Nat) (title : String) :
    (renderErrBlock cfg core f hideDiff fuel T e num title).1
      = (renderErrBlock cfg core f hideDiff fuel S e num title).1
    ∧ mutOnly f (renderErrBlock cfg core f hideDiff fuel S e num title).2
        (renderErrBlock cfg core f hideDiff fuel T e num title).2 := by
  have henv := mutOnly_env f S T h
  rcases h e with he | ⟨he, hsd⟩
  · by_cases hb : (!hideDiff && showDiffJs (S e)) = true
    · constructor
      · simp only [renderErrBlock, he, henv]
        rw [if_pos hb, if_pos hb]
      · simp only [renderErrBlock, he, henv]
        rw [if_pos hb, if_pos hb]
        intro j
        by_cases hje : j = e
        · subst hje; left; simp [updStore]
        · simp only [updStore, if_neg hje]
          exact h j
    · constructor
      · simp only [renderErrBlock, he, henv]
        rw [if_neg hb, if_neg hb]
      · simp only [renderErrBlock, he, henv]
        rw [if_neg hb, if_neg hb]
        exact h
  · have hsd2 : showDiffJs (stringifyDiffObjs f (S e)) = true := sdo_showDiff f (S e) hsd
    by_cases hb : (!hideDiff) = true
    · have hbS : (!hideDiff && showDiffJs (S e)) = true := by rw [hb, hsd]; rfl
      have hbT : (!hideDiff && showDiffJs (stringifyDiffObjs f (S e))) = true := by
        rw [hb, hsd2]; rfl
      constructor
      · simp only [renderErrBlock, he, henv, sdo_idem, blockMsg0_sdo]
        rw [if_pos hbT, if_pos hbS]
      · simp only [renderErrBlock, he, henv, sdo_idem, blockMsg0_sdo]
        rw [if_pos hbT, if_pos hbS]
        intro j
        by_cases hje : j = e
        · subst hje; left; simp [updStore]
        · simp only [updStore, if_neg hje]
          rcases h j with hj | ⟨hj, hsj⟩
          · left; exact hj
          · right; exact ⟨hj, hsj⟩
    · have hb' : (!hideDiff) = false := by simpa using hb
      constructor
      · simp only [renderErrBlock, he, henv, blockMsg0_sdo, hb', Bool.false_and]
        rw [if_neg (by simp), if_neg (by simp)]
      · simp only [renderErrBlock, he, henv, hb', Bool.false_and]
        rw [if_neg (by simp), if_neg (by simp)]
        exact h

lemma renderErrBlock_mut (cfg : DiffCfg) (core : Bool → String → String → Except String String)
    (f : JSVal → String) (hideDiff : Bool) (fuel : Nat) (S : Nat → RErr)
    (e num : Nat) (title : String) :
    mutOnly f S (renderErrBlock cfg core f hideDiff fuel S e num title).2 := by
  simp only [renderErrBlock]
  by_cases hb : (!hideDiff && showDiffJs (S e)) = true
  · rw [if_pos hb]
    intro j
    by_cases hje : j = e
    · subst hje
      right
      refine ⟨by simp [updStore], ?_⟩
      have hb2 := hb
      simp only [Bool.and_eq_true] at hb2
      exact hb2.2
    · left; simp [updStore, hje]
  · rw [if_neg hb]
    exact mutOnly_refl f S

lemma listRenderAux_rel (cfg : DiffCfg) (core : Bool → String → String → Except String String)
    (f : JSVal → String) (hideDiff : Bool) (fuel : Nat) :
    ∀ (fs : List RTest) (i : Nat) (mt : Option Nat) (me : List Nat) (S T : Nat → RErr),
      mutOnly f S T →
      (listRenderAux cfg core f hideDiff fuel fs i mt me T).1
        = (listRenderAux cfg core f hideDiff fuel fs i mt me S).1
      ∧ mutOnly f (listRenderAux cfg core f hideDiff fuel fs i mt me S).2
          (listRenderAux cfg core f hideDiff fuel fs i mt me T).2 := by
  intro fs
  induction fs with
  | nil => intro i mt me S T h; exact ⟨rfl, h⟩
  | cons t rest ih =>
    intro i mt me S T h
    have hmul := mutOnly_multiple f S T h t.err
    simp only [listRenderAux, hmul]
    cases hm : (S t.err).multiple with
    | nil =>
      obtain ⟨hline, hrel⟩ := renderErrBlock_rel cfg core f hideDiff fuel S T h t.err (i + 1)
        (renderTitle t.titlePath)
      obtain ⟨hlines, hrel2⟩ := ih (i + 1) mt me _ _ hrel
      exact ⟨by simp [hline, hlines], by simpa using hrel2⟩
    | cons e0 etl =>
      by_cases hmt : mt = some t.tid
      · subst hmt
        cases me with
        | nil =>
          obtain ⟨hlines, hrel2⟩ := ih (i + 1) (some t.tid) [] S T h
          exact ⟨by simp [hlines], by simpa using hrel2⟩
        | cons e tl =>
          obtain ⟨hline, hrel⟩ := renderErrBlock_rel cfg core f hideDiff fuel S T h e (i + 1)
            (renderTitle t.titlePath)
          obtain ⟨hlines, hrel2⟩ := ih (i + 1) (some t.tid) tl _ _ hrel
          exact ⟨by simp [hline, hlines], by simpa using hrel2⟩
      · obtain ⟨hline, hrel⟩ := renderErrBlock_rel cfg core f hideDiff fuel S T h t.err (i + 1)
          (renderTitle t.titlePath)
        obtain ⟨hlines, hrel2⟩ := ih (i + 1) (some t.tid) (e0 :: etl) _ _ hrel
        exact ⟨by simp [hmt, hline, hlines], by simpa [hmt] using hrel2⟩

lemma listRenderAux_mut (cfg : DiffCfg) (core : Bool → String → String → Except String String)
    (f : JSVal → String) (hideDiff : Bool) (fuel : Nat) :
    ∀ (fs : List RTest) (i : Nat) (mt : Option Nat) (me : List Nat) (S : Nat → RErr),
      mutOnly f S (listRenderAux cfg core f hideDiff fuel fs i mt me S).2 := by
  intro fs
  induction fs with
  | nil => intro i mt me S; exact mutOnly_refl f S
  | cons t rest ih =>
    intro i mt me S
    simp only [listRenderAux]
    cases hm : (S t.err).multiple with
    | nil =>
      have h1 := renderErrBlock_mut cfg core f hideDiff fuel S t.err (i + 1)
        (renderTitle t.titlePath)
      have h2 := ih (i + 1) mt me
        (renderErrBlock cfg core f hideDiff fuel S t.err (i + 1) (renderTitle t.titlePath)).2
      simpa using mutOnly_trans f _ _ _ h1 h2
    | cons e0 etl =>
      by_cases hmt : mt = some t.tid
      · subst hmt
        cases me with
        | nil => simpa using ih (i + 1) (some t.tid) [] S
        | cons e tl =>
          have h1 := renderErrBlock_mut cfg core f hideDiff fuel S e (i + 1)
            (renderTitle t.titlePath)
          have h2 := ih (i + 1) (some t.tid) tl
            (renderErrBlock cfg core f hideDiff fuel S e (i + 1) (renderTitle t.titlePath)).2
          simpa using mutOnly_trans f _ _ _ h1 h2
      · have h1 := renderErrBlock_mut cfg core f hideDiff fuel S t.err (i + 1)
          (renderTitle t.titlePath)
        have h2 := ih (i + 1) (some t.tid) (e0 :: etl)
          (renderErrBlock cfg core f hideDiff fuel S t.err (i + 1) (renderTitle t.titlePath)).2
        simpa [hmt] using mutOnly_trans f _ _ _ h1 h2

/-- C8: rendering the run summary twice over unchanged stats and ordered
failures produces identical output.  The epilogue's only state effect is
`stringifyDiffObjs` replacing `err.actual`/`err.expected` by their string
forms while `list` renders a shown diff; that mutation preserves every
field the flattener and the failure queue read, keeps `showDiff` true, and
is idempotent, so the second render — over the mutated error store —
emits exactly the lines of the first, and the stats and failures list
themselves are untouched. -/
theorem c8_epilogue_idempotent (cfg : DiffCfg)
    (core : Bool → String → String → Except String String)
    (stringifyFn : JSVal → String) (hideDiff : Bool) (msFmt : Nat → String)
    (st : PresenterState) :
    (epilogueRender cfg core stringifyFn hideDiff msFmt
        (epilogueRender cfg core stringifyFn hideDiff msFmt st).2).1
      = (epilogueRender cfg core stringifyFn hideDiff msFmt st).1
    ∧ (epilogueRender cfg core stringifyFn hideDiff msFmt st).2.stats = st.stats
    ∧ (epilogueRender cfg core stringifyFn hideDiff msFmt st).2.failures = st.failures := by
  by_cases hf : st.stats.failures = 0
  · have hst : (epilogueRender cfg core stringifyFn hideDiff msFmt st).2 = st := by
      simp only [epilogueRender]
      rw [if_pos hf]
    rw [hst]
    exact ⟨rfl, rfl, rfl⟩
  · have hrel : mutOnly stringifyFn st.errs
        (listRender cfg core stringifyFn hideDiff (st.nErr + 1) st.failures st.errs).2 := by
      simp only [listRender]
      exact listRenderAux_mut cfg core stringifyFn hideDiff (st.nErr + 1)
        st.failures 0 none [] st.errs
    have hst2 : (epilogueRender cfg core stringifyFn hideDiff msFmt st).2
        = { st with errs :=
            (listRender cfg core stringifyFn hideDiff (st.nErr + 1) st.failures st.errs).2 } := by
      simp only [epilogueRender]
      rw [if_neg hf]
    have hlines : (listRender cfg core stringifyFn hideDiff (st.nErr + 1) st.failures
          (listRender cfg core stringifyFn hideDiff (st.nErr + 1) st.failures st.errs).2).1
        = (listRender cfg core stringifyFn hideDiff (st.nErr + 1) st.failures st.errs).1 := by
      simp only [listRender]
      rw [(listRenderAux_rel cfg core stringifyFn hideDiff (st.nErr + 1)
        st.failures 0 none [] st.errs _ (by simpa [listRender] using hrel)).1]
    refine ⟨?_, by rw [hst2], by rw [hst2]⟩
    rw [hst2]
    simp only [epilogueRender]
    rw [if_neg hf, if_neg hf]
    simp only [hlines]

/-- A concrete stringifier standing in for `utils.stringify`. -/
def presenterStringify : JSVal → String
  | .undef => "[undefined]"
  | .vstr s => "S:" ++ s
  | .vnum _ => "N"
  | .vobj c => "O:" ++ c

/-- A concrete diff core standing in for the `diff` package. -/
def presenterCore : Bool → String → String → Except String String :=
  fun _ a e => .ok ("DIFF(" ++ a ++ "," ++ e ++ ")")

/-- A concrete failing error whose diff operands are numbers, so the first
render performs the `stringifyDiffObjs` mutation. -/
def presenterErr0 : RErr :=
  ⟨none, "boom: expected stuff", "boom: expected stuff\n  at f", none,
   false, true, .vnum 3, .vnum 4, []⟩

/-- A run with two passes and one failure referencing `presenterErr0`. -/
def presenterSt0 : PresenterState :=
  ⟨⟨2, 0, 1, 120⟩, (fun _ => presenterErr0), 1, [⟨0, ["suite", "t"], 0⟩]⟩

/-- Millisecond humaniser stand-in for the `ms` package. -/
def presenterMs (n : Nat) : String := toString n ++ "ms"

/-- Witness for C8 at a concrete state where the first render really
mutates the error store (`actual` goes from the number 3 to its string
form), yet the second render's output equals the first's. -/
theorem c8_epilogue_idempotent_witness :
    ((epilogueRender ⟨false, false, 8192⟩ presenterCore presenterStringify false
        presenterMs presenterSt0).2.errs 0).actual = JSVal.vstr "N"
    ∧ (presenterSt0.errs 0).actual = JSVal.vnum 3
    ∧ (epilogueRender ⟨false, false, 8192⟩ presenterCore presenterStringify false
          presenterMs
          (epilogueRender ⟨false, false, 8192⟩ presenterCore presenterStringify false
            presenterMs presenterSt0).2).1
      = (epilogueRender ⟨false, false, 8192⟩ presenterCore presenterStringify false
          presenterMs presenterSt0).1 :=
  ⟨by decide, by decide,
   (c8_epilogue_idempotent ⟨false, false, 8192⟩ presenterCore presenterStringify false
     presenterMs presenterSt0).1⟩
